import Mathlib

/-!
# Verification of the safe-agent-sandbox execution engine

Shallow embedding, in Lean 4, of the security-relevant pure logic of the
safe-agent-sandbox supervisor (Go), together with proofs about the embedded
functions.  Byte strings are modelled as `List Char` (one `Char` per byte;
the Go sources operate on ASCII data at every place modelled here), and Go
`int64` values as `Int`.

Sources embedded:
* `internal/sandbox/runner.go` — `truncateOutput` and result construction;
* `internal/sandbox/pool.go` — `ResourceLimits`, `DefaultLimits`, `Validate`;
* the Docker backend (`DockerRunner`): `validateRequest`, the limits
  selection in `buildDockerArgs`, `claudeDefaultLimits`, `envBlocklist`,
  `sensitivePathPrefixes`, `sensitiveHomeDirs`;
* `internal/runtime` — the runtime registry (`NewRegistry`, `Get`) and the
  registered runtimes, plus the (unregistered) `ClaudeRuntime`;
* `internal/proxy/proxy.go` — the reverse-proxy `Director`;
* `pkg/seccomp` — the profile builder, `DefaultProfile`,
  `NetworkAllowProfile`, and `profileToDockerJSON`;
* `internal/api/stream.go` — `SSEWriter.Write`;
* `internal/api` handlers — `HandleExecute` / `HandleExecuteStream` control
  flow, and `internal/monitor/detector.go` — the escape detector.
-/

/-! ## Output truncation (`internal/sandbox/runner.go`, `truncateOutput`) -/

/-- The marker `truncateOutput` appends to over-long output (23 bytes). -/
def truncationMarker : List Char := "\n... [output truncated]".data

/-- Embedding of `truncateOutput(s string, maxBytes int) string`:
`if len(s) <= maxBytes { return s }; return s[:maxBytes] + marker`. -/
def truncateOutput (s : List Char) (maxBytes : Nat) : List Char :=
  if s.length ≤ maxBytes then s else s.take maxBytes ++ truncationMarker

/-- Stdout cap used by both backends (`1<<20`). -/
def maxOutputBytes : Nat := 1 <<< 20

/-- Stderr cap used by both backends (`256*1024`). -/
def maxStderrBytes : Nat := 256 * 1024

/-- The `Output` field of every `ExecutionResult` built by `executeInternal`
(timeout path and completion path, containerd and Docker backends alike):
`truncateOutput(stdoutBuf.String(), 1<<20)`. -/
def resultOutput (stdoutBuf : List Char) : List Char :=
  truncateOutput stdoutBuf maxOutputBytes

/-- The `Stderr` field of every `ExecutionResult` built by `executeInternal`:
`truncateOutput(stderrBuf.String(), 256*1024)`. -/
def resultStderr (stderrBuf : List Char) : List Char :=
  truncateOutput stderrBuf maxStderrBytes

theorem truncationMarker_length : truncationMarker.length = 23 := by decide

theorem truncateOutput_length (s : List Char) (maxBytes : Nat) :
    (truncateOutput s maxBytes).length =
      if s.length ≤ maxBytes then s.length else maxBytes + 23 := by
  unfold truncateOutput
  by_cases h : s.length ≤ maxBytes
  · simp [h]
  · have hlt : maxBytes ≤ s.length := le_of_not_le h
    simp [h, truncationMarker_length, List.length_take, Nat.min_eq_left hlt]

/-! ## Resource limits (`internal/sandbox/pool.go`) -/

/-- Embedding of `ResourceLimits` (all four fields are Go `int64`). -/
structure ResourceLimits where
  cpuShares : Int
  memoryMB : Int
  pidsLimit : Int
  diskMB : Int
deriving DecidableEq, Repr

/-- `DefaultLimits()`. -/
def DefaultLimits : ResourceLimits := ⟨512, 256, 50, 100⟩

/-- `claudeDefaultLimits()` from the Docker backend. -/
def claudeDefaultLimits : ResourceLimits := ⟨2048, 1024, 200, 500⟩

/-- The Go zero value `ResourceLimits{}`. -/
def zeroLimits : ResourceLimits := ⟨0, 0, 0, 0⟩

/-- Embedding of `ResourceLimits.Validate()`: `true` iff the method returns
`nil`; each failing range check returns an `ErrInvalidRequest`-wrapped
error. -/
def ResourceLimits.validate (rl : ResourceLimits) : Bool :=
  if rl.cpuShares < 2 || rl.cpuShares > 4096 then false
  else if rl.memoryMB < 16 || rl.memoryMB > 2048 then false
  else if rl.pidsLimit < 5 || rl.pidsLimit > 500 then false
  else if rl.diskMB < 1 || rl.diskMB > 1024 then false
  else true

/-- The limits selection at the top of `DockerRunner.buildDockerArgs`:
a request whose limits struct is the zero value runs under the built-in
defaults (claude or standard); any other limits value is used verbatim. -/
def effectiveLimits (isClaude : Bool) (reqLimits : ResourceLimits) : ResourceLimits :=
  if reqLimits = zeroLimits then
    if isClaude then claudeDefaultLimits else DefaultLimits
  else reqLimits

/-- The limits gate at the end of `DockerRunner.validateRequest`:
`if req.Limits != (ResourceLimits{}) { req.Limits.Validate() }`. -/
def limitsGate (reqLimits : ResourceLimits) : Bool :=
  if reqLimits = zeroLimits then true else reqLimits.validate

/-- C7 helper: the standard (and only) ranges `Validate` enforces. -/
def inStandardRanges (rl : ResourceLimits) : Prop :=
  (2 ≤ rl.cpuShares ∧ rl.cpuShares ≤ 4096) ∧
  (16 ≤ rl.memoryMB ∧ rl.memoryMB ≤ 2048) ∧
  (5 ≤ rl.pidsLimit ∧ rl.pidsLimit ≤ 500) ∧
  (1 ≤ rl.diskMB ∧ rl.diskMB ≤ 1024)

instance (rl : ResourceLimits) : Decidable (inStandardRanges rl) := by
  unfold inStandardRanges; infer_instance

/-! ## Runtime registry (`internal/runtime`) -/

/-- Embedding of the data of a `runtime.Runtime` implementation. -/
structure SRuntime where
  name : String
  image : String
  fileExtension : String
deriving DecidableEq, Repr

/-- `PythonRuntime`. -/
def pythonRuntime : SRuntime := ⟨"python", "docker.io/library/python:3.12-slim", ".py"⟩

/-- `NodeRuntime`. -/
def nodeRuntime : SRuntime := ⟨"node", "docker.io/library/node:20-slim", ".js"⟩

/-- `BashRuntime`. -/
def bashRuntime : SRuntime := ⟨"bash", "docker.io/library/alpine:3.19", ".sh"⟩

/-- `ClaudeRuntime` (defined in the runtime package but never registered). -/
def claudeRuntime : SRuntime := ⟨"claude", "sandbox-claude:latest", ".txt"⟩

/-- Embedding of `NewRegistry()`: it registers exactly `PythonRuntime`,
`NodeRuntime` and `BashRuntime`, keyed by `Name()`. -/
def newRegistry : List SRuntime := [pythonRuntime, nodeRuntime, bashRuntime]

/-- `Registry.Get(language)`: map lookup by name (`none` models the
"unsupported language" error return). -/
def registryGet (reg : List SRuntime) (language : String) : Option SRuntime :=
  reg.find? (fun rt => rt.name == language)

/-! ## Environment-variable validation (Docker backend, `validateRequest`) -/

/-- `envBlocklist` from the Docker backend. -/
def envBlocklist : List String :=
  ["LD_PRELOAD", "LD_LIBRARY_PATH", "HTTP_PROXY", "HTTPS_PROXY",
   "NODE_OPTIONS", "PYTHONPATH", "PATH", "HOME", "USER"]

/-- The per-character key check in `validateRequest`:
`(c >= 'A' && c <= 'Z') || (c >= 'a' && c <= 'z') || (c >= '0' && c <= '9') || c == '_'`. -/
def isWordChar (c : Char) : Bool :=
  ('A' ≤ c && c ≤ 'Z') || ('a' ≤ c && c ≤ 'z') || ('0' ≤ c && c ≤ '9') || c == '_'

/-- ASCII upper-casing, as `strings.ToUpper` acts on the `[A-Za-z0-9_]`
keys that reach the blocklist check. -/
def asciiUpper (c : Char) : Char :=
  if 'a' ≤ c && c ≤ 'z' then Char.ofNat (c.toNat - 32) else c

/-- One iteration of the `for _, env := range req.EnvVars` loop in the
Docker backend's `validateRequest`: the entry must contain `'='`, every
character of `env[:strings.Index(env, "=")]` must be a word character, and
the upper-cased key must not be in `envBlocklist`.  `true` iff no error is
returned for this entry. -/
def validateEnvEntry (env : List Char) : Bool :=
  if '=' ∈ env then
    (env.takeWhile (fun c => c ≠ '=')).all isWordChar &&
      !(envBlocklist.contains
          (String.mk ((env.takeWhile (fun c => c ≠ '=')).map asciiUpper)))
  else false

/-- The whole env-vars loop: every entry passes. -/
def validateEnvVars (envs : List (List Char)) : Bool :=
  envs.all validateEnvEntry

/-- The claim's pattern `^[A-Za-z0-9_]+=.*`: a non-empty all-word-character
key followed by `'='` and anything. -/
def matchesClaimEnvPattern (env : List Char) : Prop :=
  ∃ k r, env = k ++ '=' :: r ∧ k ≠ [] ∧ k.all isWordChar = true

/-! ## Work-dir and request validation (Docker backend, `validateRequest`) -/

/-- `sensitivePathPrefixes` from the Docker backend. -/
def sensitivePathPrefixes : List String := ["/etc", "/var", "/root"]

/-- `sensitiveHomeDirs` from the Docker backend. -/
def sensitiveHomeDirs : List String := [".ssh", ".aws", ".gnupg", ".claude"]

/-- `strings.Contains(s, sub)` on byte lists. -/
def containsSub (s sub : List Char) : Bool :=
  s.tails.any (fun t => sub.isPrefixOf t)

/-- One sensitive-prefix check:
`strings.HasPrefix(realPath, prefix+"/") || realPath == prefix`. -/
def underRoot (root realPath : List Char) : Bool :=
  (root ++ ['/']).isPrefixOf realPath || realPath == root

/-- The `sensitivePathPrefixes` loop: an error is returned iff some prefix
hits. -/
def sensitivePrefixHit (realPath : List Char) : Bool :=
  sensitivePathPrefixes.any (fun pre => underRoot pre.data realPath)

/-- The `sensitiveHomeDirs` loop:
`strings.Contains(realPath, "/"+dir+"/") || strings.HasSuffix(realPath, "/"+dir)`. -/
def sensitiveHomeDirHit (realPath : List Char) : Bool :=
  sensitiveHomeDirs.any (fun dir =>
    containsSub realPath ('/' :: dir.data ++ ['/']) ||
    ('/' :: dir.data).isSuffixOf realPath)

/-- The allowed-roots check: with a non-empty root list the path must be
under (or equal to) one of the roots; with an empty list every work dir is
rejected. -/
def allowedRootsOK (roots : List (List Char)) (realPath : List Char) : Bool :=
  if roots.length > 0 then roots.any (fun root => underRoot root realPath)
  else false

/-- An execution request as consumed by the backend
(`sandbox.ExecutionRequest`).  `timeout` is a `time.Duration` in
nanoseconds. -/
structure ExecutionRequest where
  code : List Char
  language : String
  timeout : Int
  limits : ResourceLimits
  networkEnabled : Bool
  workDir : List Char
  envVars : List (List Char)
deriving DecidableEq, Repr

/-- The two error families `validateRequest` produces. -/
inductive ValidateError where
  | invalidRequest
  | unsupportedLang
deriving DecidableEq, Repr

/-- `60 * time.Second` in nanoseconds. -/
def sixtySeconds : Int := 60 * 1000000000

/-- `5 * time.Minute` in nanoseconds. -/
def fiveMinutes : Int := 5 * 60 * 1000000000

/-- Embedding of the Docker backend's `validateRequest`.  The filesystem is
abstracted by `resolve` (= `filepath.EvalSymlinks`: `none` models an error
return) and `isDir` (= `os.Stat` succeeding with a directory).  On success
the updated request is returned; the source mutates `req.WorkDir` to the
resolved path (`req.WorkDir = realPath`). -/
def validateWorkDir (resolve : List Char → Option (List Char))
    (isDir : List Char → Bool) (allowedRoots : List (List Char))
    (req : ExecutionRequest) : Except ValidateError ExecutionRequest :=
  if req.workDir = [] then .ok req
  else
    match resolve req.workDir with
    | none => .error .invalidRequest
    | some realPath =>
      if ¬ isDir realPath then .error .invalidRequest
      else if sensitivePrefixHit realPath then .error .invalidRequest
      else if sensitiveHomeDirHit realPath then .error .invalidRequest
      else if allowedRootsOK allowedRoots realPath then
        .ok { req with workDir := realPath }
      else .error .invalidRequest

def validateRequest (resolve : List Char → Option (List Char))
    (isDir : List Char → Bool) (allowedRoots : List (List Char))
    (req : ExecutionRequest) : Except ValidateError ExecutionRequest :=
  if req.code = [] then .error .invalidRequest
  else if req.code.length > 1 <<< 20 then .error .invalidRequest
  else if (registryGet newRegistry req.language).isNone then .error .unsupportedLang
  else if req.timeout > (if req.language = "claude" then fiveMinutes else sixtySeconds) then
    .error .invalidRequest
  else
    match validateWorkDir resolve isDir allowedRoots req with
    | .error e => .error e
    | .ok req' =>
      if ¬ validateEnvVars req'.envVars then .error .invalidRequest
      else if ¬ limitsGate req'.limits then .error .invalidRequest
      else .ok req'

/-! ## C2 — output truncation -/

/-- Shared characterisation of `Validate`: it succeeds exactly on the
standard ranges. -/
theorem validate_iff_ranges (rl : ResourceLimits) :
    rl.validate = true ↔ inStandardRanges rl := by
  unfold ResourceLimits.validate inStandardRanges
  split_ifs with h1 h2 h3 h4 <;> simp_all <;> omega

/-- **C2, counterexample.** The claim bounds `len(result.Output)` by 1 MiB,
but on captured stdout of 1 MiB + 1 bytes `truncateOutput` slices to 1 MiB
and then appends the 23-byte marker, so the result is longer than 1 MiB. -/
theorem spec_c2_counterexample :
    maxOutputBytes < (resultOutput (List.replicate (maxOutputBytes + 1) 'a')).length := by
  unfold resultOutput
  rw [truncateOutput_length]
  rw [if_neg (by simp)]
  omega

/-- **C2 (amended).** For every captured stdout/stderr, the result fields
built by `executeInternal` satisfy `len(output) ≤ 1 MiB + 23` and
`len(stderr) ≤ 256 KiB + 23`: over-long stdout is truncated to its first
1 MiB with the 23-byte marker `"\n... [output truncated]"` appended (so the
field is then exactly 1 MiB + 23 bytes long), stderr identically at
256 KiB; within-cap output is returned verbatim. -/
theorem spec_c2_output_caps (stdoutBuf stderrBuf : List Char) :
    (resultOutput stdoutBuf).length ≤ maxOutputBytes + 23 ∧
    (resultStderr stderrBuf).length ≤ maxStderrBytes + 23 ∧
    (maxOutputBytes < stdoutBuf.length →
      resultOutput stdoutBuf = stdoutBuf.take maxOutputBytes ++ truncationMarker ∧
      (resultOutput stdoutBuf).length = maxOutputBytes + 23) ∧
    (maxStderrBytes < stderrBuf.length →
      resultStderr stderrBuf = stderrBuf.take maxStderrBytes ++ truncationMarker ∧
      (resultStderr stderrBuf).length = maxStderrBytes + 23) ∧
    (stdoutBuf.length ≤ maxOutputBytes → resultOutput stdoutBuf = stdoutBuf) ∧
    (stderrBuf.length ≤ maxStderrBytes → resultStderr stderrBuf = stderrBuf) := by
  unfold resultOutput resultStderr
  refine ⟨?_, ?_, ?_, ?_, ?_, ?_⟩
  · rw [truncateOutput_length]; split <;> omega
  · rw [truncateOutput_length]; split <;> omega
  · intro h
    constructor
    · unfold truncateOutput; rw [if_neg (by omega)]
    · rw [truncateOutput_length, if_neg (by omega)]
  · intro h
    constructor
    · unfold truncateOutput; rw [if_neg (by omega)]
    · rw [truncateOutput_length, if_neg (by omega)]
  · intro h; unfold truncateOutput; rw [if_pos h]
  · intro h; unfold truncateOutput; rw [if_pos h]

/-- Witness for `spec_c2_output_caps` at concrete inputs: over-long stdout
(1 MiB + 1 bytes) gains the marker; a 1-byte stderr passes through. -/
theorem spec_c2_output_caps_witness :
    resultOutput (List.replicate (maxOutputBytes + 1) 'a') =
      (List.replicate (maxOutputBytes + 1) 'a').take maxOutputBytes ++ truncationMarker ∧
    resultStderr ['b'] = ['b'] :=
  ⟨((spec_c2_output_caps (List.replicate (maxOutputBytes + 1) 'a') ['b']).2.2.1
      (by simp)).1,
   (spec_c2_output_caps (List.replicate (maxOutputBytes + 1) 'a') ['b']).2.2.2.2.2
      (by decide)⟩

/-! ## C7 — resource-limit validation -/

/-- **C7, counterexample.** `Validate()` rejects the claimed dev-tier maxima
`(cpu_shares 8192, memory_mb 16384, pids_limit 2000, disk_mb 10240)`: there
is no tiered ceiling in the code, only the standard ranges. -/
theorem spec_c7_counterexample :
    ResourceLimits.validate ⟨8192, 16384, 2000, 10240⟩ = false := by decide

/-- **C7 (amended).** `ResourceLimits.Validate()` succeeds exactly for
values whose four fields are within the standard ranges — cpu_shares
2–4096, memory_mb 16–2048, pids_limit 5–500, disk_mb 1–1024 — and fails
with `InvalidRequest` for any value outside them; there is no dev tier, so
the dev-tier maxima (8192, 16384, 2000, 10240) are rejected. -/
theorem spec_c7_validate_ranges (rl : ResourceLimits) :
    rl.validate = true ↔ inStandardRanges rl :=
  validate_iff_ranges rl

/-- Witness for `spec_c7_validate_ranges`: both directions exercised at
concrete limits values. -/
theorem spec_c7_validate_ranges_witness :
    ResourceLimits.validate ⟨512, 256, 50, 100⟩ = true ∧
    inStandardRanges ⟨2, 16, 5, 1⟩ :=
  ⟨(spec_c7_validate_ranges ⟨512, 256, 50, 100⟩).mpr (by decide),
   (spec_c7_validate_ranges ⟨2, 16, 5, 1⟩).mp (by decide)⟩

/-! ## C10 — limits defaulting in the Docker backend -/

/-- **C10.** A request whose limits struct is entirely zero skips limits
validation (`validateRequest` only calls `Validate` on non-zero limits) and
runs under the built-in defaults — cpu_shares 512, memory 256 MiB, pids 50,
disk 100 MiB, and for the claude runtime 2048 / 1024 MiB / 200 / 500 MiB;
a request with any non-zero limits field is used verbatim (never merged
with defaults) and must pass the full range check or be rejected with
`InvalidRequest`. -/
theorem spec_c10_limits_defaulting (isClaude : Bool) (rl : ResourceLimits) :
    (limitsGate zeroLimits = true ∧
     effectiveLimits true zeroLimits = claudeDefaultLimits ∧
     effectiveLimits false zeroLimits = DefaultLimits ∧
     claudeDefaultLimits = ⟨2048, 1024, 200, 500⟩ ∧
     DefaultLimits = ⟨512, 256, 50, 100⟩) ∧
    (rl ≠ zeroLimits →
      effectiveLimits isClaude rl = rl ∧
      (limitsGate rl = true ↔ inStandardRanges rl)) := by
  refine ⟨⟨by decide, by decide, by decide, rfl, rfl⟩, fun h => ⟨?_, ?_⟩⟩
  · unfold effectiveLimits; rw [if_neg h]
  · unfold limitsGate; rw [if_neg h]; exact validate_iff_ranges rl

/-- Witness for `spec_c10_limits_defaulting`: non-zero limits pass the gate
iff in range, at a concrete value. -/
theorem spec_c10_limits_defaulting_witness :
    effectiveLimits true ⟨100, 100, 100, 100⟩ = ⟨100, 100, 100, 100⟩ :=
  ((spec_c10_limits_defaulting true ⟨100, 100, 100, 100⟩).2 (by decide)).1

/-! ## C3 — the runtime registry and the agent language -/

/-- **C3.** `NewRegistry` registers only the standard languages:
`Registry.Get` succeeds for `"python"`, `"node"` and `"bash"` but fails for
the agent runtime name `"claude"` (`ClaudeRuntime` exists in the runtime
package but is never registered), so every otherwise-valid agent-class
request — here with non-empty code, zero timeout, zero limits — is rejected
by `validateRequest` with the unsupported-language error. -/
theorem spec_c3_claude_unregistered :
    registryGet newRegistry "claude" = none ∧
    (registryGet newRegistry "python").isSome = true ∧
    (registryGet newRegistry "node").isSome = true ∧
    (registryGet newRegistry "bash").isSome = true ∧
    validateRequest (fun p => some p) (fun _ => true) []
      { code := "hi".data, language := "claude", timeout := 0,
        limits := zeroLimits, networkEnabled := false, workDir := [],
        envVars := [] } = .error .unsupportedLang := by
  refine ⟨by decide, by decide, by decide, by decide, ?_⟩
  rfl

/-! ## C8 — env-var validation -/

/-- What the env-vars loop actually accepts, stated structurally: the entry
splits at a (possibly empty) all-word-character key followed by `'='`, and
the upper-cased key is not blocklisted. -/
def acceptedEnvEntry (env : List Char) : Prop :=
  ∃ k r, env = k ++ '=' :: r ∧ k.all isWordChar = true ∧
    envBlocklist.contains (String.mk (k.map asciiUpper)) = false

theorem isWordChar_ne_eq {c : Char} (h : isWordChar c = true) : c ≠ '=' := by
  rintro rfl; simp [isWordChar] at h

theorem takeWhile_word_key (k : List Char) (r : List Char)
    (hk : k.all isWordChar = true) :
    (k ++ '=' :: r).takeWhile (fun c => c ≠ '=') = k := by
  induction k with
  | nil => simp [List.takeWhile]
  | cons c t ih =>
    simp only [List.all_cons, Bool.and_eq_true] at hk
    have hc : c ≠ '=' := isWordChar_ne_eq hk.1
    rw [List.cons_append, List.takeWhile_cons, if_pos (by simp [hc]), ih hk.2]

theorem dropWhile_to_eq (env : List Char) (h : '=' ∈ env) :
    ∃ r, env.dropWhile (fun c => c ≠ '=') = '=' :: r := by
  induction env with
  | nil => cases h
  | cons c t ih =>
    by_cases hc : c = '='
    · subst hc; exact ⟨t, by simp [List.dropWhile]⟩
    · have ht : '=' ∈ t := by
        rcases List.mem_cons.mp h with h1 | h1
        · exact absurd h1.symm hc
        · exact h1
      obtain ⟨r, hr⟩ := ih ht
      exact ⟨r, by rw [List.dropWhile_cons, if_pos (by simp [hc]), hr]⟩

theorem validateEnvEntry_iff (env : List Char) :
    validateEnvEntry env = true ↔ acceptedEnvEntry env := by
  constructor
  · intro h
    unfold validateEnvEntry at h
    split_ifs at h with hmem
    · obtain ⟨r, hr⟩ := dropWhile_to_eq env hmem
      simp only [Bool.and_eq_true, Bool.not_eq_true'] at h
      refine ⟨env.takeWhile (fun c => c ≠ '='), r, ?_, h.1, h.2⟩
      conv_lhs => rw [← List.takeWhile_append_dropWhile (p := fun c => c ≠ '=') (l := env)]
      rw [hr]
  · rintro ⟨k, r, rfl, hall, hblock⟩
    unfold validateEnvEntry
    have hmem : '=' ∈ k ++ '=' :: r := by simp
    rw [if_pos hmem, takeWhile_word_key k r hall, hall, hblock]
    simp

/-- **C8, counterexample.** The entry `"=x"` has an empty key, so it does
not match the claimed pattern `^[A-Za-z0-9_]+=.*`, yet `validateRequest`
accepts it: the character loop over the empty key is vacuous and the empty
key is not blocklisted. -/
theorem spec_c8_counterexample :
    validateEnvVars [['=', 'x']] = true ∧ ¬ matchesClaimEnvPattern ['=', 'x'] := by
  constructor
  · decide
  · rintro ⟨k, r, heq, hne, hall⟩
    match k, heq with
    | [], _ => exact hne rfl
    | c :: t, heq =>
      have hc : c = '=' := by
        have h0 := congrArg (fun l => l.head?) heq
        simpa using h0.symm
      subst hc
      have hw : isWordChar '=' = true :=
        List.all_eq_true.mp hall '=' (by simp)
      exact absurd hw (by decide)

/-- **C8 (amended).** Request validation accepts an `env_vars` list iff
every entry matches `^[A-Za-z0-9_]*=.*` — a possibly-empty key of word
characters followed by `'='` — and no entry's key, upper-cased, is in the
blocklist {LD_PRELOAD, LD_LIBRARY_PATH, HTTP_PROXY, HTTPS_PROXY,
NODE_OPTIONS, PYTHONPATH, PATH, HOME, USER}; any violating entry causes
rejection with `InvalidRequest`.  (The code does not require the key to be
non-empty, unlike the claimed `+`.) -/
theorem spec_c8_env_validation (envs : List (List Char)) :
    validateEnvVars envs = true ↔ ∀ env ∈ envs, acceptedEnvEntry env := by
  unfold validateEnvVars
  rw [List.all_eq_true]
  constructor
  · intro h env hmem
    exact (validateEnvEntry_iff env).mp (h env hmem)
  · intro h env hmem
    exact (validateEnvEntry_iff env).mpr (h env hmem)

/-- Witness for `spec_c8_env_validation`: a concrete two-entry list is
accepted, and a blocklisted key is rejected via the reverse direction. -/
theorem spec_c8_env_validation_witness :
    ∀ env ∈ [['A', '=', 'b'], ['=', 'x']], acceptedEnvEntry env :=
  (spec_c8_env_validation [['A', '=', 'b'], ['=', 'x']]).mp (by decide)

/-! ## C6 — work-dir validation: path segments -/

/-- Splitting a path on `'/'` into its segments (used to state the claim's
"contains no path segment `.ssh`, `.aws`, `.gnupg`, `.claude`"): the
inverse of interspersing `'/'`. -/
def pathSegments : List Char → List (List Char)
  | [] => [[]]
  | c :: t =>
    if c = '/' then [] :: pathSegments t
    else (c :: (pathSegments t).headI) :: (pathSegments t).tail

theorem pathSegments_ne_nil (p : List Char) : pathSegments p ≠ [] := by
  cases p with
  | nil => simp [pathSegments]
  | cons c t =>
    unfold pathSegments
    split <;> simp

theorem pathSegments_cons_sep (t : List Char) :
    pathSegments ('/' :: t) = [] :: pathSegments t := by
  rw [pathSegments]
  simp

theorem pathSegments_cons_of_ne (c : Char) (t : List Char) (hc : c ≠ '/')
    {h : List Char} {r : List (List Char)} (ht : pathSegments t = h :: r) :
    pathSegments (c :: t) = (c :: h) :: r := by
  unfold pathSegments
  rw [if_neg hc, ht]
  simp

theorem pathSegments_append_sep (a b : List Char) :
    pathSegments (a ++ '/' :: b) = pathSegments a ++ pathSegments b := by
  induction a with
  | nil => simp [pathSegments]
  | cons c t ih =>
    by_cases hc : c = '/'
    · subst hc
      show pathSegments ('/' :: (t ++ '/' :: b)) = pathSegments ('/' :: t) ++ _
      rw [pathSegments_cons_sep, pathSegments_cons_sep, ih]
      simp
    · obtain ⟨h, r, hr⟩ : ∃ h r, pathSegments t = h :: r := by
        cases hpt : pathSegments t with
        | nil => exact absurd hpt (pathSegments_ne_nil t)
        | cons h r => exact ⟨h, r, rfl⟩
      have hr2 : pathSegments (t ++ '/' :: b) = h :: (r ++ pathSegments b) := by
        rw [ih, hr]; simp
      rw [show (c :: t) ++ '/' :: b = c :: (t ++ '/' :: b) from rfl,
        pathSegments_cons_of_ne c _ hc hr2, pathSegments_cons_of_ne c t hc hr]
      simp

theorem pathSegments_no_sep (p : List Char) (h : '/' ∉ p) :
    pathSegments p = [p] := by
  induction p with
  | nil => rfl
  | cons c t ih =>
    have hc : c ≠ '/' := fun hx => h (hx ▸ List.mem_cons_self c t)
    have ht : '/' ∉ t := fun hx => h (List.mem_cons_of_mem c hx)
    rw [pathSegments_cons_of_ne c t hc (ih ht)]

theorem pathSegments_cons_decomp (t : List Char) :
    ∀ h r, pathSegments t = h :: r →
      (t = h ∧ r = []) ∨ ∃ v, t = h ++ '/' :: v ∧ r = pathSegments v := by
  induction t with
  | nil =>
    intro h r heq
    unfold pathSegments at heq
    injection heq with h1 h2
    exact Or.inl ⟨h1, h2.symm⟩
  | cons c t' ih =>
    intro h r heq
    by_cases hc : c = '/'
    · subst hc
      rw [pathSegments_cons_sep] at heq
      injection heq with h1 h2
      exact Or.inr ⟨t', by rw [← h1]; simp, h2.symm⟩
    · obtain ⟨h', r', hr'⟩ : ∃ h' r', pathSegments t' = h' :: r' := by
        cases hpt : pathSegments t' with
        | nil => exact absurd hpt (pathSegments_ne_nil t')
        | cons x y => exact ⟨x, y, rfl⟩
      rw [pathSegments_cons_of_ne c t' hc hr'] at heq
      injection heq with h1 h2
      rcases ih h' r' hr' with ⟨hth, hrn⟩ | ⟨v, htv, hrv⟩
      · exact Or.inl ⟨by rw [← h1, ← hth], by rw [← h2, hrn]⟩
      · refine Or.inr ⟨v, ?_, by rw [← h2, hrv]⟩
        rw [← h1, htv]
        rfl

/-- A segment of `t` occurs either at the very front of `t` or immediately
after a `'/'`, and extends to the end of `t` or to the next `'/'`. -/
theorem mem_pathSegments_decomp :
    ∀ (n : Nat) (t s : List Char), t.length ≤ n → s ∈ pathSegments t →
      (∃ v, t = s ++ v ∧ (v = [] ∨ ∃ v', v = '/' :: v')) ∨
      (∃ u v, t = u ++ '/' :: s ++ v ∧ (v = [] ∨ ∃ v', v = '/' :: v')) := by
  intro n
  induction n with
  | zero =>
    intro t s hlen hmem
    have ht : t = [] := List.length_eq_zero.mp (Nat.le_zero.mp hlen)
    subst ht
    simp [pathSegments] at hmem
    subst hmem
    exact Or.inl ⟨[], rfl, Or.inl rfl⟩
  | succ n ih =>
    intro t s hlen hmem
    obtain ⟨h, r, hr⟩ : ∃ h r, pathSegments t = h :: r := by
      cases hpt : pathSegments t with
      | nil => exact absurd hpt (pathSegments_ne_nil t)
      | cons x y => exact ⟨x, y, rfl⟩
    rw [hr] at hmem
    rcases List.mem_cons.mp hmem with hsh | hsr
    · subst hsh
      rcases pathSegments_cons_decomp t s r hr with ⟨hts, _⟩ | ⟨v, htv, _⟩
      · exact Or.inl ⟨[], by rw [hts]; simp, Or.inl rfl⟩
      · exact Or.inl ⟨'/' :: v, htv, Or.inr ⟨v, rfl⟩⟩
    · rcases pathSegments_cons_decomp t h r hr with ⟨_, hrn⟩ | ⟨v, htv, hrv⟩
      · rw [hrn] at hsr; cases hsr
      · have hvlen : v.length ≤ n := by
          have := congrArg List.length htv
          simp at this
          omega
        have hsv : s ∈ pathSegments v := by rw [← hrv]; exact hsr
        rcases ih v s hvlen hsv with ⟨w, hvw, hb⟩ | ⟨u, w, hvw, hb⟩
        · refine Or.inr ⟨h, w, ?_, hb⟩
          rw [htv, hvw]
          simp
        · refine Or.inr ⟨h ++ '/' :: u, w, ?_, hb⟩
          rw [htv, hvw]
          simp

/-! Bridging the code's substring checks to the claim's path conditions. -/

theorem containsSub_iff (s sub : List Char) :
    containsSub s sub = true ↔ sub <:+: s := by
  unfold containsSub
  rw [List.any_eq_true]
  constructor
  · rintro ⟨t, ht, hp⟩
    exact List.infix_iff_prefix_suffix.mpr
      ⟨t, List.isPrefixOf_iff_prefix.mp hp, (List.mem_tails t s).mp ht⟩
  · intro h
    obtain ⟨t, hp, hs⟩ := List.infix_iff_prefix_suffix.mp h
    exact ⟨t, (List.mem_tails t s).mpr hs, List.isPrefixOf_iff_prefix.mpr hp⟩

/-- The claim's "equal to or under" a root. -/
def specUnderOrEqual (root p : List Char) : Prop :=
  p = root ∨ root ++ ['/'] <+: p

theorem underRoot_iff (root p : List Char) :
    underRoot root p = true ↔ specUnderOrEqual root p := by
  unfold underRoot specUnderOrEqual
  rw [Bool.or_eq_true, List.isPrefixOf_iff_prefix, beq_iff_eq]
  exact or_comm

instance (root p : List Char) : Decidable (specUnderOrEqual root p) :=
  decidable_of_iff (underRoot root p = true) (underRoot_iff root p)

/-- The claim's full condition on a resolved work dir: not equal to or
under a sensitive prefix, no sensitive path segment, equal to or under a
configured allowed root. -/
def specWorkDirOK (roots : List (List Char)) (p : List Char) : Prop :=
  (∀ pre ∈ sensitivePathPrefixes, ¬ specUnderOrEqual pre.data p) ∧
  (∀ d ∈ sensitiveHomeDirs, d.data ∉ pathSegments p) ∧
  (∃ root ∈ roots, specUnderOrEqual root p)

theorem sensitivePrefixHit_iff (p : List Char) :
    sensitivePrefixHit p = false ↔
      ∀ pre ∈ sensitivePathPrefixes, ¬ specUnderOrEqual pre.data p := by
  unfold sensitivePrefixHit
  rw [← Bool.not_eq_true, List.any_eq_true]
  constructor
  · intro h pre hpre hspec
    exact h ⟨pre, hpre, (underRoot_iff pre.data p).mpr hspec⟩
  · rintro h ⟨pre, hpre, hroot⟩
    exact h pre hpre ((underRoot_iff pre.data p).mp hroot)

theorem allowedRootsOK_iff (roots : List (List Char)) (p : List Char) :
    allowedRootsOK roots p = true ↔ ∃ root ∈ roots, specUnderOrEqual root p := by
  unfold allowedRootsOK
  constructor
  · intro h
    rw [if_pos] at h
    · obtain ⟨root, hmem, hroot⟩ := List.any_eq_true.mp h
      exact ⟨root, hmem, (underRoot_iff root p).mp hroot⟩
    · by_contra hlen
      rw [if_neg hlen] at h
      cases h
  · rintro ⟨root, hmem, hroot⟩
    have hlen : roots.length > 0 := List.length_pos.mpr (List.ne_nil_of_mem hmem)
    rw [if_pos hlen, List.any_eq_true]
    exact ⟨root, hmem, (underRoot_iff root p).mpr hroot⟩

/-- One sensitive directory: the code's substring/suffix test detects
exactly the paths having it as a segment — for absolute paths (the code is
applied to the output of `filepath.EvalSymlinks` on an absolute work dir,
which is absolute). -/
theorem homeDirCheck_iff (p d : List Char) (hd : d ≠ []) (hsep : '/' ∉ d)
    (habs : p.head? = some '/') :
    (containsSub p ('/' :: d ++ ['/']) || ('/' :: d).isSuffixOf p) = true ↔
      d ∈ pathSegments p := by
  rw [Bool.or_eq_true, containsSub_iff, List.isSuffixOf_iff_suffix]
  constructor
  · rintro (hinf | hsuf)
    · obtain ⟨u, v, huv⟩ := hinf
      have huv' : p = u ++ '/' :: (d ++ '/' :: v) := by
        rw [← huv]; simp
      rw [huv', pathSegments_append_sep, pathSegments_append_sep,
        pathSegments_no_sep d hsep]
      simp
    · obtain ⟨u, hu⟩ := hsuf
      have hu' : p = u ++ '/' :: d := by rw [← hu]
      rw [hu', pathSegments_append_sep, pathSegments_no_sep d hsep]
      simp
  · intro hmem
    rcases mem_pathSegments_decomp p.length p d le_rfl hmem with
      ⟨v, hv, _⟩ | ⟨u, v, huv, hb⟩
    · exfalso
      rw [hv] at habs
      cases d with
      | nil => exact hd rfl
      | cons c t =>
        simp at habs
        subst habs
        exact hsep (List.mem_cons_self _ t)
    · rcases hb with rfl | ⟨v', rfl⟩
      · right
        exact ⟨u, by rw [huv]; simp⟩
      · left
        refine ⟨u, v', ?_⟩
        rw [huv]
        simp

theorem sensitiveHomeDirHit_iff (p : List Char) (habs : p.head? = some '/') :
    sensitiveHomeDirHit p = false ↔
      ∀ d ∈ sensitiveHomeDirs, d.data ∉ pathSegments p := by
  unfold sensitiveHomeDirHit
  rw [← Bool.not_eq_true, List.any_eq_true]
  constructor
  · intro h d hd hmem
    have h1 : d.data ≠ [] := by fin_cases hd <;> decide
    have h2 : '/' ∉ d.data := by fin_cases hd <;> decide
    exact h ⟨d, hd, (homeDirCheck_iff p d.data h1 h2 habs).mpr hmem⟩
  · rintro h ⟨d, hd, hcheck⟩
    have h1 : d.data ≠ [] := by fin_cases hd <;> decide
    have h2 : '/' ∉ d.data := by fin_cases hd <;> decide
    exact h d hd ((homeDirCheck_iff p d.data h1 h2 habs).mp hcheck)

/-- **C6.** The work-dir gate as the code has it.  First conjunct: the
claim is unreachable for agent-class requests — an otherwise perfectly
valid claude request with an allowed work dir is rejected as an
unsupported language (`ClaudeRuntime` is never registered), so validation
never resolves its work dir.  Second conjunct: whenever the
language-exists check passes (any registered language; the code applies
the work-dir gate to every language), validation resolves symlinks,
replaces the request's work dir with the resolved path, and accepts iff
the resolved path is an existing directory, not equal to or under `/etc`,
`/var` or `/root`, without a path segment `.ssh`, `.aws`, `.gnupg` or
`.claude`, and equal to or under a configured allowed root; with no
configured roots every work-dir mount is rejected. -/
theorem spec_c6_workdir_validation :
    validateRequest (fun p => some p) (fun _ => true) ["/home".data]
      { code := "hi".data, language := "claude", timeout := 0,
        limits := zeroLimits, networkEnabled := false,
        workDir := "/home/user/project".data, envVars := [] } =
      .error .unsupportedLang ∧
    ∀ (resolve : List Char → Option (List Char)) (isDir : List Char → Bool)
      (roots : List (List Char)) (req : ExecutionRequest) (rp : List Char),
      (registryGet newRegistry req.language).isSome = true →
      req.code ≠ [] →
      req.code.length ≤ 1 <<< 20 →
      req.timeout ≤ sixtySeconds →
      validateEnvVars req.envVars = true →
      limitsGate req.limits = true →
      req.workDir ≠ [] →
      resolve req.workDir = some rp →
      rp.head? = some '/' →
      ((validateRequest resolve isDir roots req = .ok { req with workDir := rp } ↔
          isDir rp = true ∧ specWorkDirOK roots rp) ∧
        (roots = [] → ∀ req', validateRequest resolve isDir roots req ≠ .ok req')) := by
  constructor
  · rfl
  · intro resolve isDir roots req rp hlang hcode hclen htim henv hlim hwd hres habs
    obtain ⟨rt, hrt⟩ := Option.isSome_iff_exists.mp hlang
    have hclen' : ¬ req.code.length > 1 <<< 20 := by omega
    have htim' : ¬ req.timeout >
        (if req.language = "claude" then fiveMinutes else sixtySeconds) := by
      by_cases hL : req.language = "claude" <;>
        simp only [hL, if_pos, if_neg, if_true, if_false] <;>
        · unfold fiveMinutes sixtySeconds at *
          omega
    have hwdstep : validateWorkDir resolve isDir roots req =
        if isDir rp then
          if sensitivePrefixHit rp then Except.error ValidateError.invalidRequest
          else if sensitiveHomeDirHit rp then Except.error ValidateError.invalidRequest
          else if allowedRootsOK roots rp then Except.ok { req with workDir := rp }
          else Except.error ValidateError.invalidRequest
        else Except.error ValidateError.invalidRequest := by
      unfold validateWorkDir
      rw [if_neg hwd, hres]
      by_cases h1 : isDir rp <;> simp [h1]
    have hmain : validateRequest resolve isDir roots req =
        if isDir rp then
          if sensitivePrefixHit rp then Except.error ValidateError.invalidRequest
          else if sensitiveHomeDirHit rp then Except.error ValidateError.invalidRequest
          else if allowedRootsOK roots rp then Except.ok { req with workDir := rp }
          else Except.error ValidateError.invalidRequest
        else Except.error ValidateError.invalidRequest := by
      unfold validateRequest
      rw [if_neg hcode, if_neg hclen', if_neg (by simp [hrt]), if_neg htim', hwdstep]
      by_cases h1 : isDir rp <;> by_cases h2 : sensitivePrefixHit rp <;>
        by_cases h3 : sensitiveHomeDirHit rp <;> by_cases h4 : allowedRootsOK roots rp <;>
        simp [h1, h2, h3, h4, henv, hlim]
    constructor
    · rw [hmain]
      unfold specWorkDirOK
      rw [← sensitivePrefixHit_iff, ← sensitiveHomeDirHit_iff rp habs,
        ← allowedRootsOK_iff]
      by_cases h1 : isDir rp <;> by_cases h2 : sensitivePrefixHit rp <;>
        by_cases h3 : sensitiveHomeDirHit rp <;> by_cases h4 : allowedRootsOK roots rp <;>
        simp [h1, h2, h3, h4]
    · intro hroots req' heq
      subst hroots
      rw [hmain] at heq
      have h4 : allowedRootsOK [] rp = false := by unfold allowedRootsOK; simp
      by_cases h1 : isDir rp <;> by_cases h2 : sensitivePrefixHit rp <;>
        by_cases h3 : sensitiveHomeDirHit rp <;>
        simp [h1, h2, h3, h4] at heq

/-- Witness for `spec_c6_workdir_validation`: a registered language with a
valid work dir under the configured root is accepted with the resolved
path stored back. -/
theorem spec_c6_workdir_validation_witness :
    validateRequest (fun p => some p) (fun _ => true) ["/home".data]
      { code := "hi".data, language := "python", timeout := 0,
        limits := zeroLimits, networkEnabled := false,
        workDir := "/home/user/project".data, envVars := [] } =
      .ok { code := "hi".data, language := "python", timeout := 0,
            limits := zeroLimits, networkEnabled := false,
            workDir := "/home/user/project".data, envVars := [] } :=
  ((spec_c6_workdir_validation.2 (fun p => some p) (fun _ => true) ["/home".data]
      { code := "hi".data, language := "python", timeout := 0,
        limits := zeroLimits, networkEnabled := false,
        workDir := "/home/user/project".data, envVars := [] }
      "/home/user/project".data
      (by decide) (by decide) (by decide) (by decide) (by decide) (by decide)
      (by decide) rfl (by decide)).1).mpr
    ⟨rfl, by decide, fun d hd => by fin_cases hd <;> decide,
      "/home".data, by decide, by decide⟩

/-! ## C4 — auth-proxy header rewriting (`internal/proxy/proxy.go`) -/

/-- The upstream host constant `anthropicHost`. -/
def anthropicHost : String := "api.anthropic.com"

/-- A request as the proxy's `Director` sees it: the header multimap (keys
already in Go's canonical MIME form, as `net/http` stores them) and the
`Host` field. -/
structure ProxyRequest where
  headers : List (String × String)
  host : String
deriving DecidableEq, Repr

/-- `Header.Del(key)`: removes every value stored under the key. -/
def headerDel (h : List (String × String)) (key : String) : List (String × String) :=
  h.filter (fun e => e.1 ≠ key)

/-- `Header.Set(key, value)`: replaces all values under the key with the
single given value. -/
def headerSet (h : List (String × String)) (key value : String) :
    List (String × String) :=
  (key, value) :: headerDel h key

/-- Embedding of the customised `Director` installed by `NewWithRPM`: after
the single-host director (which does not touch these fields), it deletes
any caller-supplied `x-api-key` and `Authorization` headers, injects
`x-api-key: <upstream token>`, and rewrites `Host` to the upstream host.
(`Del`/`Set` canonicalise their argument, so the canonical key
`X-Api-Key` is used.) -/
def director (token : String) (r : ProxyRequest) : ProxyRequest :=
  { headers :=
      headerSet (headerDel (headerDel r.headers "X-Api-Key") "Authorization")
        "X-Api-Key" token,
    host := anthropicHost }

/-- **C4.** Every request forwarded by the auth proxy carries exactly the
configured upstream token as its only `x-api-key` header, no
`Authorization` header at all (so no caller-supplied auth header
survives), and its `Host` rewritten to the upstream host — for all
incoming requests, whatever auth headers the caller sent. -/
theorem spec_c4_proxy_auth_headers (token : String) (r : ProxyRequest) :
    (director token r).headers.filter (fun e => e.1 = "X-Api-Key") =
      [("X-Api-Key", token)] ∧
    (director token r).headers.filter (fun e => e.1 = "Authorization") = [] ∧
    (director token r).host = "api.anthropic.com" := by
  unfold director headerSet headerDel anthropicHost
  refine ⟨?_, ?_, rfl⟩
  · rw [List.filter_cons_of_pos (by simp)]
    congr 1
    rw [List.filter_eq_nil_iff]
    intro e he
    have h1 := (List.mem_filter.mp he).2
    simp at h1
    simp [h1]
  · rw [List.filter_cons_of_neg (by simp)]
    rw [List.filter_eq_nil_iff]
    intro e he
    have h2 := (List.mem_filter.mp (List.mem_filter.mp he).1).2
    simp at h2
    simp [h2]

/-! ## C5 — seccomp profiles and the Docker JSON rendering (`pkg/seccomp`) -/

/-- The OCI seccomp actions used (`specs.LinuxSeccompAction` values mapped
by `profileToDockerJSON`). -/
inductive SeccompAction where
  | actAllow | actErrno | actTrap | actLog | actKill
deriving DecidableEq, Repr

/-- The OCI architectures in the renderer's `archMap`. -/
inductive SeccompArch where
  | archX86_64 | archAARCH64 | archX86 | archARM
deriving DecidableEq, Repr

/-- The OCI argument comparison operators (`specs.LinuxSeccompOperator`). -/
inductive SeccompOp where
  | opEqualTo | opNotEqual | opGreaterThan | opGreaterEqual
  | opLessThan | opLessEqual | opMaskedEqual
deriving DecidableEq, Repr

/-- `specs.LinuxSeccompArg` (`Index uint`, `Value uint64`, `Op`). -/
structure LinuxSeccompArg where
  index : Nat
  value : Nat
  op : SeccompOp
deriving DecidableEq, Repr

/-- `specs.LinuxSyscall`. -/
structure LinuxSyscall where
  names : List String
  action : SeccompAction
  args : List LinuxSeccompArg
deriving DecidableEq, Repr

/-- `specs.LinuxSeccomp` (the OCI structure the builder produces). -/
structure LinuxSeccomp where
  defaultAction : SeccompAction
  architectures : List SeccompArch
  syscalls : List LinuxSyscall
deriving DecidableEq, Repr

/-- `NewBuilder()`: deny-by-default with the two architectures. -/
def newBuilder : LinuxSeccomp :=
  ⟨.actErrno, [.archX86_64, .archAARCH64], []⟩

/-- `AllowSyscalls(names...)`: appends one allow rule. -/
def allowSyscalls (b : LinuxSeccomp) (names : List String) : LinuxSeccomp :=
  { b with syscalls := b.syscalls ++ [⟨names, .actAllow, []⟩] }

/-- `BlockSyscalls(names...)`: appends one deny-with-errno rule. -/
def blockSyscalls (b : LinuxSeccomp) (names : List String) : LinuxSeccomp :=
  { b with syscalls := b.syscalls ++ [⟨names, .actErrno, []⟩] }

/-- `TrapSyscalls(names...)`: appends one trap rule. -/
def trapSyscalls (b : LinuxSeccomp) (names : List String) : LinuxSeccomp :=
  { b with syscalls := b.syscalls ++ [⟨names, .actTrap, []⟩] }

/-- `AllowSyscallWithArgs(name, args)`: appends one single-name allow rule
with argument constraints. -/
def allowSyscallWithArgs (b : LinuxSeccomp) (name : String)
    (args : List LinuxSeccompArg) : LinuxSeccomp :=
  { b with syscalls := b.syscalls ++ [⟨[name], .actAllow, args⟩] }

/-- `baseSyscalls(b)`: the base allowlist, including the two
`prctl`-restricted-to-thread-name rules (`PR_SET_NAME` = 15,
`PR_GET_NAME` = 16). -/
def baseSyscalls (b : LinuxSeccomp) : LinuxSeccomp :=
  allowSyscallWithArgs (allowSyscallWithArgs
    (allowSyscalls (allowSyscalls (allowSyscalls (allowSyscalls (allowSyscalls
      (allowSyscalls (allowSyscalls (allowSyscalls b
        ["read", "write", "readv", "writev", "pread64", "pwrite64",
         "open", "openat", "close", "lseek",
         "stat", "fstat", "lstat", "newfstatat",
         "access", "faccessat", "faccessat2",
         "dup", "dup2", "dup3",
         "fcntl",
         "poll", "ppoll", "select", "pselect6",
         "pipe", "pipe2",
         "readlink", "readlinkat",
         "getdents64"])
        ["brk", "mmap", "munmap", "mprotect", "mremap", "madvise"])
        ["execve", "execveat", "exit", "exit_group", "wait4", "waitid",
         "clone", "clone3", "vfork", "set_tid_address",
         "set_robust_list", "get_robust_list"])
        ["futex", "gettid", "tgkill",
         "rt_sigaction", "rt_sigprocmask", "rt_sigreturn", "sigaltstack"])
        ["clock_gettime", "clock_getres", "gettimeofday",
         "nanosleep", "clock_nanosleep"])
        ["getpid", "getppid", "getuid", "geteuid", "getgid", "getegid",
         "uname", "getcwd"])
        ["epoll_create1", "epoll_ctl", "epoll_wait", "epoll_pwait", "eventfd2"])
        ["getrandom", "arch_prctl", "ioctl", "sysinfo",
         "getrlimit", "prlimit64", "umask",
         "chmod", "fchmod", "fchmodat",
         "chdir", "fchdir",
         "rename", "renameat", "renameat2",
         "unlink", "unlinkat",
         "mkdir", "mkdirat", "rmdir",
         "symlink", "symlinkat", "link", "linkat",
         "ftruncate", "fallocate", "fsync", "fdatasync", "flock",
         "statfs", "fstatfs", "statx", "copy_file_range"])
    "prctl" [⟨0, 15, .opEqualTo⟩])
    "prctl" [⟨0, 16, .opEqualTo⟩]

/-- `dangerousSyscalls(b)`: traps (including `memfd_create`) then
deny-with-errno blocks. -/
def dangerousSyscalls (b : LinuxSeccomp) : LinuxSeccomp :=
  blockSyscalls (trapSyscalls b
    ["ptrace", "process_vm_readv", "process_vm_writev",
     "keyctl", "add_key", "request_key",
     "bpf", "perf_event_open", "userfaultfd", "memfd_create",
     "kexec_load", "kexec_file_load",
     "finit_module", "init_module", "delete_module"])
    ["mount", "umount2", "pivot_root", "reboot",
     "swapon", "swapoff",
     "sethostname", "setdomainname",
     "setns", "unshare", "acct",
     "settimeofday", "adjtimex", "clock_adjtime",
     "nfsservctl", "personality", "lookup_dcookie",
     "ioperm", "iopl"]

/-- `DefaultProfile()`. -/
def DefaultProfile : LinuxSeccomp :=
  dangerousSyscalls (baseSyscalls newBuilder)

/-- The network syscalls `NetworkAllowProfile` adds. -/
def networkSyscallNames : List String :=
  ["socket", "connect", "bind", "listen", "accept", "accept4",
   "sendto", "recvfrom", "sendmsg", "recvmsg",
   "getsockopt", "setsockopt",
   "getsockname", "getpeername", "shutdown"]

/-- `NetworkAllowProfile()`: base, then the network allow rule, then the
dangerous sets. -/
def NetworkAllowProfile : LinuxSeccomp :=
  dangerousSyscalls (allowSyscalls (baseSyscalls newBuilder) networkSyscallNames)

/-- A rule of the Docker-CLI JSON schema (`dockerSeccompRule`). -/
structure DockerSeccompArg where
  index : Nat
  value : Nat
  op : String
deriving DecidableEq, Repr

structure DockerSeccompRule where
  names : List String
  action : String
  args : List DockerSeccompArg
deriving DecidableEq, Repr

/-- The Docker-CLI JSON profile (`dockerSeccompProfile`): the semantic
content of the JSON bytes `profileToDockerJSON` marshals. -/
structure DockerSeccompProfile where
  defaultAction : String
  architectures : List String
  syscalls : List DockerSeccompRule
deriving DecidableEq, Repr

/-- `actionMap` in `profileToDockerJSON` (total on the five actions). -/
def actionMap : SeccompAction → String
  | .actAllow => "SCMP_ACT_ALLOW"
  | .actErrno => "SCMP_ACT_ERRNO"
  | .actTrap => "SCMP_ACT_TRAP"
  | .actLog => "SCMP_ACT_LOG"
  | .actKill => "SCMP_ACT_KILL"

/-- `archMap` in `profileToDockerJSON` (total on the four architectures,
so the `ok` filter keeps every entry). -/
def archMap : SeccompArch → String
  | .archX86_64 => "SCMP_ARCH_X86_64"
  | .archAARCH64 => "SCMP_ARCH_AARCH64"
  | .archX86 => "SCMP_ARCH_X86"
  | .archARM => "SCMP_ARCH_ARM"

/-- `opMap` in `profileToDockerJSON` (total on the seven operators). -/
def opMap : SeccompOp → String
  | .opEqualTo => "SCMP_CMP_EQ"
  | .opNotEqual => "SCMP_CMP_NE"
  | .opGreaterThan => "SCMP_CMP_GT"
  | .opGreaterEqual => "SCMP_CMP_GE"
  | .opLessThan => "SCMP_CMP_LT"
  | .opLessEqual => "SCMP_CMP_LE"
  | .opMaskedEqual => "SCMP_CMP_MASKED_EQ"

def argToDocker (a : LinuxSeccompArg) : DockerSeccompArg :=
  ⟨a.index, a.value, opMap a.op⟩

def ruleToDocker (r : LinuxSyscall) : DockerSeccompRule :=
  ⟨r.names, actionMap r.action, r.args.map argToDocker⟩

/-- Embedding of `profileToDockerJSON`: per-rule translation of names,
action and argument constraints. -/
def profileToDockerJSON (p : LinuxSeccomp) : DockerSeccompProfile :=
  { defaultAction := actionMap p.defaultAction,
    architectures := p.architectures.map archMap,
    syscalls := p.syscalls.map ruleToDocker }

/-- Satisfaction of one OCI argument constraint against a syscall's
argument vector. -/
def opSat (op : SeccompOp) (x v : Nat) : Bool :=
  match op with
  | .opEqualTo => x == v
  | .opNotEqual => x != v
  | .opGreaterThan => decide (x > v)
  | .opGreaterEqual => decide (x ≥ v)
  | .opLessThan => decide (x < v)
  | .opLessEqual => decide (x ≤ v)
  | .opMaskedEqual => (x &&& v) == v

/-- Satisfaction of one Docker-JSON argument constraint, interpreting the
operator by its `SCMP_CMP_*` string. -/
def dockerOpSat (op : String) (x v : Nat) : Bool :=
  if op = "SCMP_CMP_EQ" then x == v
  else if op = "SCMP_CMP_NE" then x != v
  else if op = "SCMP_CMP_GT" then decide (x > v)
  else if op = "SCMP_CMP_GE" then decide (x ≥ v)
  else if op = "SCMP_CMP_LT" then decide (x < v)
  else if op = "SCMP_CMP_LE" then decide (x ≤ v)
  else if op = "SCMP_CMP_MASKED_EQ" then (x &&& v) == v
  else false

/-- An OCI rule matches a syscall invocation. -/
def ruleMatches (r : LinuxSyscall) (name : String) (argv : Nat → Nat) : Bool :=
  r.names.contains name && r.args.all (fun a => opSat a.op (argv a.index) a.value)

def dockerRuleMatches (r : DockerSeccompRule) (name : String) (argv : Nat → Nat) : Bool :=
  r.names.contains name && r.args.all (fun a => dockerOpSat a.op (argv a.index) a.value)

/-- The action an OCI profile takes for a syscall invocation: the first
matching rule, else the default action. -/
def ociDecide (p : LinuxSeccomp) (name : String) (argv : Nat → Nat) : SeccompAction :=
  match p.syscalls.find? (fun r => ruleMatches r name argv) with
  | some r => r.action
  | none => p.defaultAction

def dockerDecide (dp : DockerSeccompProfile) (name : String) (argv : Nat → Nat) : String :=
  match dp.syscalls.find? (fun r => dockerRuleMatches r name argv) with
  | some r => r.action
  | none => dp.defaultAction

/-- Whether the OCI structure allows the invocation. -/
def ociAllows (p : LinuxSeccomp) (name : String) (argv : Nat → Nat) : Bool :=
  ociDecide p name argv == .actAllow

/-- Whether the rendered Docker JSON allows the invocation. -/
def dockerAllows (dp : DockerSeccompProfile) (name : String) (argv : Nat → Nat) : Bool :=
  dockerDecide dp name argv == "SCMP_ACT_ALLOW"

theorem dockerOpSat_opMap (op : SeccompOp) (x v : Nat) :
    dockerOpSat (opMap op) x v = opSat op x v := by
  cases op <;> rfl

theorem dockerRuleMatches_toDocker (r : LinuxSyscall) (name : String)
    (argv : Nat → Nat) :
    dockerRuleMatches (ruleToDocker r) name argv = ruleMatches r name argv := by
  unfold dockerRuleMatches ruleMatches ruleToDocker
  simp only
  congr 1
  induction r.args with
  | nil => rfl
  | cons a t ih =>
    simp only [List.map_cons, List.all_cons, ih, argToDocker]
    rw [dockerOpSat_opMap]

theorem dockerDecide_toDocker (p : LinuxSeccomp) (name : String)
    (argv : Nat → Nat) :
    dockerDecide (profileToDockerJSON p) name argv =
      actionMap (ociDecide p name argv) := by
  unfold dockerDecide ociDecide profileToDockerJSON
  simp only
  rw [List.find?_map]
  have hpred : (fun r => dockerRuleMatches r name argv) ∘ ruleToDocker =
      fun r => ruleMatches r name argv := by
    funext r
    exact dockerRuleMatches_toDocker r name argv
  rw [hpred]
  cases p.syscalls.find? (fun r => ruleMatches r name argv) <;> rfl

theorem actionMap_allow_iff (a : SeccompAction) :
    actionMap a = "SCMP_ACT_ALLOW" ↔ a = .actAllow := by
  cases a <;> simp [actionMap]

/-- The C5 equivalence at one profile: the JSON rendering keeps the
deny-with-errno default, both architectures, and translates the rules
one-for-one (same names, mapped action, mapped argument constraints), and
it allows exactly the syscall invocations the OCI structure allows. -/
def rendersEquivalently (p : LinuxSeccomp) : Prop :=
  (profileToDockerJSON p).defaultAction = "SCMP_ACT_ERRNO" ∧
  (profileToDockerJSON p).architectures = ["SCMP_ARCH_X86_64", "SCMP_ARCH_AARCH64"] ∧
  (profileToDockerJSON p).syscalls = p.syscalls.map ruleToDocker ∧
  (∀ r ∈ p.syscalls, (ruleToDocker r).names = r.names ∧
    (ruleToDocker r).action = actionMap r.action ∧
    (ruleToDocker r).args = r.args.map argToDocker) ∧
  ∀ name argv, dockerAllows (profileToDockerJSON p) name argv =
    ociAllows p name argv

/-- **C5.** For both profiles the builder emits (default and
network-enabled), the Docker-CLI JSON rendering is semantically equivalent
to the OCI structure: same deny-with-errno default action, same
architectures, rule-for-rule the same syscall names, actions and argument
constraints, and the set of syscall invocations allowed by the rendered
JSON equals the set allowed by the OCI structure. -/
theorem spec_c5_render_equivalence :
    rendersEquivalently DefaultProfile ∧ rendersEquivalently NetworkAllowProfile := by
  have hgen : ∀ p : LinuxSeccomp,
      (∀ r ∈ p.syscalls, (ruleToDocker r).names = r.names ∧
        (ruleToDocker r).action = actionMap r.action ∧
        (ruleToDocker r).args = r.args.map argToDocker) ∧
      ∀ name argv, dockerAllows (profileToDockerJSON p) name argv =
        ociAllows p name argv := by
    intro p
    constructor
    · intro r _
      exact ⟨rfl, rfl, rfl⟩
    · intro name argv
      unfold dockerAllows ociAllows
      rw [dockerDecide_toDocker]
      cases h : ociDecide p name argv <;> simp [actionMap]
  exact ⟨⟨rfl, rfl, rfl, (hgen DefaultProfile).1, (hgen DefaultProfile).2⟩,
    ⟨rfl, rfl, rfl, (hgen NetworkAllowProfile).1, (hgen NetworkAllowProfile).2⟩⟩

/-! ## C9 — SSE framing (`internal/api/stream.go`) -/

/-- `strings.Split(s, sep)` for one-character separators. -/
def splitOnChar (sep : Char) : List Char → List (List Char)
  | [] => [[]]
  | c :: t =>
    if c = sep then [] :: splitOnChar sep t
    else (c :: (splitOnChar sep t).headI) :: (splitOnChar sep t).tail

/-- `strings.Join(pieces, sep)` for one-character separators (inverse of
`splitOnChar`), used to state what the `data:` lines of one SSE event
reconstruct to. -/
def joinSep (sep : Char) : List (List Char) → List Char
  | [] => []
  | [x] => x
  | x :: xs => x ++ sep :: joinSep sep xs

theorem splitOnChar_ne_nil (sep : Char) (l : List Char) :
    splitOnChar sep l ≠ [] := by
  cases l with
  | nil => simp [splitOnChar]
  | cons c t =>
    unfold splitOnChar
    split <;> simp

theorem splitOnChar_cons_sep (sep : Char) (t : List Char) :
    splitOnChar sep (sep :: t) = [] :: splitOnChar sep t := by
  rw [splitOnChar]
  simp

theorem splitOnChar_cons_of_ne (sep c : Char) (t : List Char) (hc : c ≠ sep)
    {h : List Char} {r : List (List Char)} (ht : splitOnChar sep t = h :: r) :
    splitOnChar sep (c :: t) = (c :: h) :: r := by
  unfold splitOnChar
  rw [if_neg hc, ht]
  simp

theorem splitOnChar_append_sep (sep : Char) (a b : List Char) :
    splitOnChar sep (a ++ sep :: b) = splitOnChar sep a ++ splitOnChar sep b := by
  induction a with
  | nil => simp [splitOnChar_cons_sep, splitOnChar]
  | cons c t ih =>
    by_cases hc : c = sep
    · subst hc
      rw [List.cons_append, splitOnChar_cons_sep, splitOnChar_cons_sep, ih]
      simp
    · obtain ⟨h, r, hr⟩ : ∃ h r, splitOnChar sep t = h :: r := by
        cases hpt : splitOnChar sep t with
        | nil => exact absurd hpt (splitOnChar_ne_nil sep t)
        | cons h r => exact ⟨h, r, rfl⟩
      have hr2 : splitOnChar sep (t ++ sep :: b) = h :: (r ++ splitOnChar sep b) := by
        rw [ih, hr]; simp
      rw [List.cons_append, splitOnChar_cons_of_ne sep c _ hc hr2,
        splitOnChar_cons_of_ne sep c t hc hr]
      simp

theorem splitOnChar_no_sep (sep : Char) (l : List Char) (h : sep ∉ l) :
    splitOnChar sep l = [l] := by
  induction l with
  | nil => rfl
  | cons c t ih =>
    have hc : c ≠ sep := fun hx => h (hx ▸ List.mem_cons_self c t)
    have ht : sep ∉ t := fun hx => h (List.mem_cons_of_mem c hx)
    rw [splitOnChar_cons_of_ne sep c t hc (ih ht)]

theorem not_mem_splitOnChar (sep : Char) (l : List Char) :
    ∀ piece ∈ splitOnChar sep l, sep ∉ piece := by
  induction l with
  | nil =>
    intro piece hmem
    simp [splitOnChar] at hmem
    subst hmem
    simp
  | cons c t ih =>
    intro piece hmem
    by_cases hc : c = sep
    · subst hc
      rw [splitOnChar_cons_sep] at hmem
      rcases List.mem_cons.mp hmem with rfl | hmem'
      · simp
      · exact ih piece hmem'
    · obtain ⟨h, r, hr⟩ : ∃ h r, splitOnChar sep t = h :: r := by
        cases hpt : splitOnChar sep t with
        | nil => exact absurd hpt (splitOnChar_ne_nil sep t)
        | cons h r => exact ⟨h, r, rfl⟩
      rw [splitOnChar_cons_of_ne sep c t hc hr] at hmem
      rcases List.mem_cons.mp hmem with rfl | hmem'
      · intro hx
        rcases List.mem_cons.mp hx with hx' | hx'
        · exact hc hx'.symm
        · exact ih h (hr ▸ List.mem_cons_self h r) hx'
      · exact ih piece (hr ▸ List.mem_cons_of_mem h hmem')

theorem joinSep_cons_ne_nil (sep : Char) (x : List Char)
    (xs : List (List Char)) (h : xs ≠ []) :
    joinSep sep (x :: xs) = x ++ sep :: joinSep sep xs := by
  cases xs with
  | nil => exact absurd rfl h
  | cons y ys => rfl

theorem joinSep_splitOnChar (sep : Char) (l : List Char) :
    joinSep sep (splitOnChar sep l) = l := by
  induction l with
  | nil => rfl
  | cons c t ih =>
    by_cases hc : c = sep
    · subst hc
      rw [splitOnChar_cons_sep,
        joinSep_cons_ne_nil _ [] _ (splitOnChar_ne_nil _ t), ih]
      rfl
    · obtain ⟨h, r, hr⟩ : ∃ h r, splitOnChar sep t = h :: r := by
        cases hpt : splitOnChar sep t with
        | nil => exact absurd hpt (splitOnChar_ne_nil sep t)
        | cons h r => exact ⟨h, r, rfl⟩
      rw [splitOnChar_cons_of_ne sep c t hc hr]
      cases r with
      | nil =>
        rw [hr] at ih
        show c :: h = c :: t
        rw [show joinSep sep [h] = h from rfl] at ih
        rw [ih]
      | cons y ys =>
        rw [joinSep_cons_ne_nil _ (c :: h) (y :: ys) (by simp)]
        rw [hr, joinSep_cons_ne_nil _ h (y :: ys) (by simp)] at ih
        rw [List.cons_append, ih]

/-- The SSE frame `SSEWriter.Write` emits for one accepted chunk `data`:
`event: <kind>\n`, one `data: <line>\n` per `strings.Split(data, "\n")`
piece, then a blank line. -/
def sseFrame (event data : List Char) : List Char :=
  "event: ".data ++ event ++ '\n' ::
    ((splitOnChar '\n' data).map
      (fun l => "data: ".data ++ l ++ ['\n'])).flatten ++ ['\n']

/-- Embedding of `SSEWriter.Write(p)`: returns the emitted bytes, the new
`written` counter, and the int the producer is told was written.  Empty
writes emit nothing; once `written ≥ limit` the write is dropped but still
reported as fully accepted; a straddling write is truncated to the
remaining budget. -/
def sseWrite (limit : Nat) (event : List Char) (written : Nat) (p : List Char) :
    List Char × Nat × Nat :=
  if p = [] then ([], written, 0)
  else if limit ≤ written then ([], written, p.length)
  else
    let data := p.take (limit - written)
    (sseFrame event data, written + data.length, p.length)

/-- The byte stream produced by a sequence of `Write` calls. -/
def sseRun (limit : Nat) (event : List Char) : Nat → List (List Char) → List Char
  | _, [] => []
  | written, p :: ps =>
    (sseWrite limit event written p).1 ++
      sseRun limit event (sseWrite limit event written p).2.1 ps

/-- A standard SSE line-level parser over the `\n`-separated lines of a
stream: `event: <kind>` opens an event, `data: <line>` appends a payload
line to the open event, a blank line dispatches the open event (payload =
the data lines joined with `\n`); blank lines outside an event are
ignored; anything else, an `event:` line inside an open event, a `data:`
line outside one, or an unterminated event is a parse error. -/
def parseLinesAux : List (List Char) → Option (List Char × List (List Char)) →
    List (List Char × List Char) → Option (List (List Char × List Char))
  | [], none, acc => some acc
  | [], some _, _ => none
  | l :: rest, cur, acc =>
    if l = [] then
      match cur with
      | none => parseLinesAux rest none acc
      | some (k, ds) => parseLinesAux rest none (acc ++ [(k, joinSep '\n' ds)])
    else if "event: ".data.isPrefixOf l then
      match cur with
      | none => parseLinesAux rest (some (l.drop 7, [])) acc
      | some _ => none
    else if "data: ".data.isPrefixOf l then
      match cur with
      | none => none
      | some (k, ds) => parseLinesAux rest (some (k, ds ++ [l.drop 6])) acc
    else none

/-- Parse a whole SSE byte stream into its `(kind, payload)` events. -/
def parseSSE (s : List Char) : Option (List (List Char × List Char)) :=
  parseLinesAux (splitOnChar '\n' s) none []

theorem splitOnChar_sseFrame (event data rest : List Char) (hev : '\n' ∉ event) :
    splitOnChar '\n' (sseFrame event data ++ rest) =
      ("event: ".data ++ event) ::
        ((splitOnChar '\n' data).map (fun l => "data: ".data ++ l)) ++
        [] :: splitOnChar '\n' rest := by
  unfold sseFrame
  have hev' : '\n' ∉ "event: ".data ++ event := by
    intro hx
    rcases List.mem_append.mp hx with hx' | hx'
    · simp at hx'
    · exact hev hx'
  have hshape : ("event: ".data ++ event ++ '\n' ::
        ((splitOnChar '\n' data).map
          (fun l => "data: ".data ++ l ++ ['\n'])).flatten ++ ['\n']) ++ rest =
      ("event: ".data ++ event) ++ '\n' ::
        (((splitOnChar '\n' data).map
          (fun l => "data: ".data ++ l ++ ['\n'])).flatten ++ '\n' :: rest) := by
    simp
  rw [hshape, splitOnChar_append_sep, splitOnChar_no_sep _ _ hev']
  have hdata : ∀ (pieces : List (List Char)), (∀ x ∈ pieces, '\n' ∉ x) →
      splitOnChar '\n'
        ((pieces.map (fun l => "data: ".data ++ l ++ ['\n'])).flatten ++ '\n' :: rest) =
      (pieces.map (fun l => "data: ".data ++ l)) ++ [] :: splitOnChar '\n' rest := by
    intro pieces
    induction pieces with
    | nil =>
      intro _
      rw [List.map_nil, List.flatten_nil, List.nil_append, splitOnChar_cons_sep,
        List.map_nil, List.nil_append]
    | cons x xs ih =>
      intro hall
      have hx : '\n' ∉ "data: ".data ++ x := by
        intro hmem
        rcases List.mem_append.mp hmem with h' | h'
        · simp at h'
        · exact hall x (List.mem_cons_self x xs) h'
      have hshape2 : ((("data: ".data ++ x ++ ['\n']) ::
            xs.map (fun l => "data: ".data ++ l ++ ['\n'])).flatten ++ '\n' :: rest) =
          ("data: ".data ++ x) ++ '\n' ::
            ((xs.map (fun l => "data: ".data ++ l ++ ['\n'])).flatten ++ '\n' :: rest) := by
        simp
      rw [List.map_cons, hshape2, splitOnChar_append_sep,
        splitOnChar_no_sep _ _ hx,
        ih (fun y hy => hall y (List.mem_cons_of_mem x hy))]
      simp
  rw [hdata (splitOnChar '\n' data) (not_mem_splitOnChar '\n' data)]
  simp

/-- `maxSSEStdoutBytes` from `stream.go`. -/
def maxSSEStdoutBytes : Nat := 1 <<< 20

/-- `maxSSEStderrBytes` from `stream.go`. -/
def maxSSEStderrBytes : Nat := 256 * 1024

/-- The per-stream limit `NewSSEWriter` configures for an event kind. -/
def newSSEWriterLimit (event : String) : Nat :=
  if event = "stderr" then maxSSEStderrBytes else maxSSEStdoutBytes

theorem event_prefix_not_data (x : List Char) :
    "event: ".data.isPrefixOf ("data: ".data ++ x) = false := rfl

theorem data_prefix_data (x : List Char) :
    "data: ".data.isPrefixOf ("data: ".data ++ x) = true :=
  List.isPrefixOf_iff_prefix.mpr ⟨x, rfl⟩

theorem parseLinesAux_datas (restLines : List (List Char))
    (acc : List (List Char × List Char)) :
    ∀ (pieces ds : List (List Char)) (k : List Char),
      parseLinesAux ((pieces.map (fun l => "data: ".data ++ l)) ++ [] :: restLines)
          (some (k, ds)) acc =
        parseLinesAux restLines none (acc ++ [(k, joinSep '\n' (ds ++ pieces))]) := by
  intro pieces
  induction pieces with
  | nil =>
    intro ds k
    rw [List.map_nil, List.nil_append, parseLinesAux]
    simp
  | cons x xs ih =>
    intro ds k
    rw [List.map_cons, List.cons_append, parseLinesAux]
    rw [if_neg (by simp), if_neg (by rw [event_prefix_not_data]; simp),
      if_pos (by rw [data_prefix_data])]
    show parseLinesAux _ (some (k, ds ++ [("data: ".data ++ x).drop 6])) acc = _
    have hdrop : ("data: ".data ++ x).drop 6 = x := by
      rw [show (6 : Nat) = "data: ".data.length from rfl, List.drop_left]
    rw [hdrop, ih (ds ++ [x]) k]
    simp

theorem parseLinesAux_frame (event data : List Char)
    (restLines : List (List Char)) (acc : List (List Char × List Char)) :
    parseLinesAux (("event: ".data ++ event) ::
        ((splitOnChar '\n' data).map (fun l => "data: ".data ++ l)) ++
        [] :: restLines) none acc =
      parseLinesAux restLines none (acc ++ [(event, data)]) := by
  rw [List.cons_append, parseLinesAux]
  rw [if_neg (by simp), if_pos (List.isPrefixOf_iff_prefix.mpr ⟨event, rfl⟩)]
  show parseLinesAux _ (some (("event: ".data ++ event).drop 7, [])) acc = _
  have hdrop : ("event: ".data ++ event).drop 7 = event := by
    rw [show (7 : Nat) = "event: ".data.length from rfl, List.drop_left]
  rw [hdrop, parseLinesAux_datas restLines acc (splitOnChar '\n' data) [] event]
  rw [List.nil_append, joinSep_splitOnChar]

theorem sseRun_parse (limit : Nat) (event : List Char) (hev : '\n' ∉ event) :
    ∀ (writes : List (List Char)) (written : Nat)
      (acc : List (List Char × List Char)),
      (∀ p ∈ writes, p ≠ []) →
      written + (writes.map List.length).sum ≤ limit →
      parseLinesAux (splitOnChar '\n' (sseRun limit event written writes)) none acc =
        some (acc ++ writes.map (fun w => (event, w))) := by
  intro writes
  induction writes with
  | nil =>
    intro written acc _ _
    show parseLinesAux (splitOnChar '\n' []) none acc = _
    rw [show splitOnChar '\n' [] = [[]] from rfl, parseLinesAux]
    simp [parseLinesAux]
  | cons w ws ih =>
    intro written acc hne hsum
    have hwne : w ≠ [] := hne w (List.mem_cons_self w ws)
    rw [List.map_cons, List.sum_cons] at hsum
    have hwpos : 0 < w.length := List.length_pos.mpr hwne
    have hnotfull : ¬ limit ≤ written := by omega
    have htake : w.take (limit - written) = w :=
      List.take_of_length_le (by omega)
    rw [sseRun]
    unfold sseWrite
    rw [if_neg hwne, if_neg hnotfull]
    simp only [htake]
    rw [splitOnChar_sseFrame event w _ hev,
      parseLinesAux_frame event w _ acc,
      ih (written + w.length) (acc ++ [(event, w)])
        (fun p hp => hne p (List.mem_cons_of_mem w hp)) (by omega)]
    simp

/-- **C9.** For any sequence of non-empty byte writes whose total length is
within the per-stream limit (set by `NewSSEWriter` to 1 MiB for `stdout`
and 256 KiB for `stderr`, matching the non-streaming caps), the bytes the
`SSEWriter` emits parse as a sequence of well-formed SSE events of the
configured kind whose payloads are exactly the written chunks in order —
so a newline in a payload never forges an event boundary.  Every write is
reported to the producer as fully accepted (`len(p)`), and a write
arriving after the limit is reached emits nothing while still being
reported as fully accepted. -/
theorem spec_c9_sse_framing (limit : Nat) (event : List Char) :
    (∀ writes : List (List Char),
      '\n' ∉ event →
      (∀ p ∈ writes, p ≠ []) →
      (writes.map List.length).sum ≤ limit →
      parseSSE (sseRun limit event 0 writes) =
        some (writes.map (fun w => (event, w)))) ∧
    (∀ written p, (sseWrite limit event written p).2.2 = p.length) ∧
    (∀ written p, limit ≤ written →
      (sseWrite limit event written p).1 = []) ∧
    newSSEWriterLimit "stdout" = maxOutputBytes ∧
    newSSEWriterLimit "stderr" = maxStderrBytes := by
  refine ⟨?_, ?_, ?_, by decide, by decide⟩
  · intro writes hev hne hsum
    exact sseRun_parse limit event hev writes 0 [] hne (by omega)
  · intro written p
    unfold sseWrite
    split_ifs with h1 h2 <;> simp [h1]
  · intro written p h
    unfold sseWrite
    rw [if_pos h]
    split_ifs <;> rfl

/-- Witness for `spec_c9_sse_framing`: a two-chunk stream, the first chunk
containing an embedded newline and an attempted `event: fake` injection,
parses back to exactly the two written payloads. -/
theorem spec_c9_sse_framing_witness :
    parseSSE (sseRun 64 "stdout".data 0
        ["x\nevent: fake".data, "y".data]) =
      some [("stdout".data, "x\nevent: fake".data), ("stdout".data, "y".data)] :=
  (spec_c9_sse_framing 64 "stdout".data).1
    ["x\nevent: fake".data, "y".data] (by decide) (by decide) (by decide)

/-! ## C1 — escape detector and the execute handlers
(`internal/monitor/detector.go`, `internal/api` handlers)

The compiled regular expressions of `defaultPatterns` are embedded as
executable matchers over one line of code (RE2 `MatchString` is an
unanchored search; `(?i)` is modelled by ASCII lower-casing, and `\s` is
RE2's `[\t\n\f\r ]`).  `AnalyzeCode` splits the code on `"\n"` and runs
every pattern on every line. -/

/-- `Severity` and its `String()` rendering. -/
inductive Severity where
  | low | medium | high | critical
deriving DecidableEq, Repr

def severityString : Severity → String
  | .low => "low"
  | .medium => "medium"
  | .high => "high"
  | .critical => "critical"

/-- A detection as `AnalyzeCode` reports it. -/
structure Detection where
  pattern : String
  severity : String
  detail : String
  line : Nat
deriving DecidableEq, Repr

/-- RE2 `\s` = `[\t\n\f\r ]`. -/
def goWhitespace (c : Char) : Bool :=
  c = '\t' || c = '\n' || c = '\x0c' || c = '\r' || c = ' '

def asciiLower (c : Char) : Char :=
  if 'A' ≤ c && c ≤ 'Z' then Char.ofNat (c.toNat + 32) else c

/-- `strings` containment of any of several literal alternatives (an
unanchored RE2 alternation of literals matches iff one literal occurs). -/
def containsOneOf (l : List Char) (subs : List String) : Bool :=
  subs.any (fun sub => containsSub l sub.data)

/-- `dirty.?cow` / `dirty.?pipe`: `"dirty"`, an optional non-newline
character, then the tail. -/
def matchDirtyOpt (tail : String) (l : List Char) : Bool :=
  l.tails.any (fun t =>
    "dirty".data.isPrefixOf t &&
      (tail.data.isPrefixOf (t.drop 5) ||
        match t.drop 5 with
        | c :: rest => c ≠ '\n' && tail.data.isPrefixOf rest
        | [] => false))

/-- `-[elp]` anywhere in the rest of the line. -/
def dashELP (r : List Char) : Bool :=
  r.tails.any (fun t =>
    match t with
    | '-' :: c :: _ => c = 'e' || c = 'l' || c = 'p'
    | _ => false)

/-- `(nc|ncat|netcat|socat)\s+.*-[elp]` on a lowered line. -/
def matchNetcat (l : List Char) : Bool :=
  l.tails.any (fun t =>
    ["nc", "ncat", "netcat", "socat"].any (fun w =>
      w.data.isPrefixOf t &&
        match t.drop w.data.length with
        | c :: rest => goWhitespace c && dashELP rest
        | [] => false))

/-- `bash\s+-i\s+>&` on a lowered line. -/
def matchBashI (l : List Char) : Bool :=
  l.tails.any (fun t =>
    "bash".data.isPrefixOf t &&
      match t.drop 4 with
      | c :: rest =>
        goWhitespace c &&
          ("-i".data.isPrefixOf (rest.dropWhile goWhitespace) &&
            match (rest.dropWhile goWhitespace).drop 2 with
            | c' :: rest' =>
              goWhitespace c' && ">&".data.isPrefixOf (rest'.dropWhile goWhitespace)
            | [] => false)
      | [] => false)

/-- `\s+` then an optional `f` already handled by the caller: `\s+` then one
of the three absolute prefixes, for `symlink_race`. -/
def wsThenTarget (u : List Char) : Bool :=
  match u with
  | c :: rest =>
    goWhitespace c &&
      ["/proc", "/sys", "/dev"].any (fun w =>
        w.data.isPrefixOf (rest.dropWhile goWhitespace))
  | [] => false

/-- `ln\s+-sf?\s+(/proc|/sys|/dev)` (case-sensitive). -/
def matchSymlinkRace (l : List Char) : Bool :=
  l.tails.any (fun t =>
    "ln".data.isPrefixOf t &&
      match t.drop 2 with
      | c :: rest =>
        goWhitespace c &&
          ("-s".data.isPrefixOf (rest.dropWhile goWhitespace) &&
            (match (rest.dropWhile goWhitespace).drop 2 with
             | 'f' :: rest' => wsThenTarget rest'
             | u => wsThenTarget u))
      | [] => false)

/-- An entry of `defaultPatterns`: name, description, compiled-regex
matcher, severity. -/
structure DetectionPattern where
  name : String
  description : String
  regexMatches : List Char → Bool
  severity : Severity

/-- `defaultPatterns()`, with each `regexp.MustCompile(...)` embedded as an
executable matcher. -/
def defaultPatterns : List DetectionPattern :=
  [⟨"proc_self_access", "Accessing /proc/self for process info",
    fun l => containsOneOf l
      ["/proc/self/root", "/proc/self/exe", "/proc/self/fd",
       "/proc/self/ns", "/proc/self/maps", "/proc/self/status"],
    .high⟩,
   ⟨"container_breakout", "Attempting container breakout via cgroup",
    fun l => containsOneOf l
      ["/sys/fs/cgroup", "notify_on_release", "release_agent"],
    .critical⟩,
   ⟨"host_mount_access", "Attempting to access host mounts",
    fun l => containsOneOf l ["/var/run/docker", "/var/run/containerd"],
    .critical⟩,
   ⟨"kernel_exploit", "Potential kernel exploitation attempt",
    fun l =>
      matchDirtyOpt "cow" (l.map asciiLower) ||
      matchDirtyOpt "pipe" (l.map asciiLower) ||
      containsOneOf (l.map asciiLower) ["overlayfs", "overlfs", "userfaultfd"],
    .critical⟩,
   ⟨"metadata_service", "Attempting to reach cloud metadata service",
    fun l => containsOneOf l
      ["169.254.169.254", "metadata.google", "metadata.aws"],
    .high⟩,
   ⟨"reverse_shell", "Potential reverse shell command",
    fun l =>
      matchNetcat (l.map asciiLower) ||
      containsSub (l.map asciiLower) "/dev/tcp/".data ||
      matchBashI (l.map asciiLower),
    .critical⟩,
   ⟨"capability_abuse", "Attempting to manipulate capabilities",
    fun l => containsOneOf (l.map asciiLower)
      ["cap_sys_admin", "cap_net_raw", "setcap", "getcap", "capsh"],
    .high⟩,
   ⟨"ptrace_attempt", "Attempting to use ptrace for debugging/injection",
    fun l => containsOneOf (l.map asciiLower)
      ["ptrace", "process_vm_readv", "process_vm_writev"],
    .critical⟩,
   ⟨"symlink_race", "Potential symlink race attack",
    fun l => matchSymlinkRace l,
    .high⟩,
   ⟨"crypto_miner", "Potential cryptocurrency mining",
    fun l => containsOneOf (l.map asciiLower)
      ["stratum+tcp", "xmrig", "minerd", "cryptonight", "hashrate"],
    .medium⟩]

/-- `EscapeDetector.AnalyzeCode`: split the code on `"\n"`, run every
pattern on every line, and report one detection per (line, pattern) hit,
lines outer and 1-based. -/
def analyzeCode (code : List Char) : List Detection :=
  ((splitOnChar '\n' code).enum).flatMap (fun il =>
    defaultPatterns.filterMap (fun p =>
      if p.regexMatches il.2 then
        some ⟨p.name, severityString p.severity, p.description, il.1 + 1⟩
      else none))

/-- `10 * time.Second` in nanoseconds, the handler's default timeout. -/
def tenSeconds : Int := 10 * 1000000000

/-- The API-level request fields `HandleExecute` consumes after JSON
decoding. -/
structure APIRequest where
  code : List Char
  language : String
  timeoutNs : Int
  limits : ResourceLimits
  networkEnabled : Bool
deriving DecidableEq, Repr

/-- How a handler run ends: an error response `{code, status}`, or a call
into the backend with the built `sandbox.ExecutionRequest`. -/
inductive HandlerOutcome where
  | respondError (code : String) (status : Nat)
  | callBackend (execReq : ExecutionRequest)
deriving DecidableEq, Repr

/-- The `sandbox.ExecutionRequest` `HandleExecute` builds: request timeout
if positive else 10 s; the request limits if `MemoryMB > 0` else
`DefaultLimits`; `WorkDir` and `EnvVars` are never set. -/
def execRequestOf (req : APIRequest) : ExecutionRequest :=
  { code := req.code, language := req.language,
    timeout := if req.timeoutNs > 0 then req.timeoutNs else tenSeconds,
    limits := if req.limits.memoryMB > 0 then req.limits else DefaultLimits,
    networkEnabled := req.networkEnabled, workDir := [], envVars := [] }

/-- Embedding of `Handlers.HandleExecute` up to the backend call: returns
the security-event metric names it records (one per detection, any
severity) and the outcome.  The detector's verdicts are recorded and then
ignored — no branch inspects them. -/
def handleExecute (req : APIRequest) (backendAvailable : Bool) :
    List String × HandlerOutcome :=
  if req.language = "" then ([], .respondError "INVALID_REQUEST" 400)
  else if req.code = [] then ([], .respondError "INVALID_REQUEST" 400)
  else
    let recorded := (analyzeCode req.code).map (fun d => d.pattern)
    if ¬ backendAvailable then (recorded, .respondError "RUNNER_UNAVAILABLE" 503)
    else (recorded, .callBackend (execRequestOf req))

/-- Embedding of `Handlers.HandleExecuteStream` up to the backend call: it
never invokes the escape detector on the submitted code at all. -/
def handleExecuteStream (req : APIRequest) (backendAvailable : Bool) :
    List String × HandlerOutcome :=
  if req.language = "" ∨ req.code = [] then
    ([], .respondError "INVALID_REQUEST" 400)
  else if ¬ backendAvailable then
    ([], .respondError "RUNNER_UNAVAILABLE" 503)
  else ([], .callBackend (execRequestOf req))

/-- **C1, counterexample.** The code line
`cat /sys/fs/cgroup/release_agent` matches the critical-severity
`container_breakout` pattern, yet `HandleExecute` does not respond 403
`SECURITY_BLOCKED`: it records the detection as a metric and invokes the
backend anyway. -/
theorem spec_c1_counterexample :
    (∃ d ∈ analyzeCode "cat /sys/fs/cgroup/release_agent".data,
      d.severity = "critical") ∧
    (handleExecute
        { code := "cat /sys/fs/cgroup/release_agent".data,
          language := "python", timeoutNs := 0,
          limits := zeroLimits, networkEnabled := false } true).2 =
      .callBackend (execRequestOf
        { code := "cat /sys/fs/cgroup/release_agent".data,
          language := "python", timeoutNs := 0,
          limits := zeroLimits, networkEnabled := false }) := by
  constructor
  · decide
  · rfl

/-- **C1 (amended).** Neither execute handler ever responds 403
`SECURITY_BLOCKED` — no severity blocks execution.  `HandleExecute`
records every detection of every severity as a metric and, fields present
and backend available, always invokes the backend; `HandleExecuteStream`
does not run the escape detector on the code at all (it records no
code-analysis metrics). -/
theorem spec_c1_detector_never_blocks (req : APIRequest) (avail : Bool) :
    (∀ st, (handleExecute req avail).2 ≠ .respondError "SECURITY_BLOCKED" st) ∧
    (∀ st, (handleExecuteStream req avail).2 ≠ .respondError "SECURITY_BLOCKED" st) ∧
    (req.language ≠ "" → req.code ≠ [] →
      (handleExecute req avail).1 =
        (analyzeCode req.code).map (fun d => d.pattern) ∧
      (avail = true →
        (handleExecute req avail).2 = .callBackend (execRequestOf req))) ∧
    (handleExecuteStream req avail).1 = [] := by
  refine ⟨?_, ?_, ?_, ?_⟩
  · intro st
    unfold handleExecute
    split_ifs <;> simp
  · intro st
    unfold handleExecuteStream
    split_ifs <;> simp
  · intro hlang hcode
    unfold handleExecute
    rw [if_neg hlang, if_neg hcode]
    constructor
    · split_ifs <;> rfl
    · intro havail
      rw [if_neg (by simp [havail])]
  · unfold handleExecuteStream
    split_ifs <;> rfl

/-- Witness for `spec_c1_detector_never_blocks`: at a concrete request the
recorded metrics are exactly the detector's verdicts and the backend is
invoked. -/
theorem spec_c1_detector_never_blocks_witness :
    (handleExecute
        { code := "import ptrace".data, language := "python", timeoutNs := 0,
          limits := zeroLimits, networkEnabled := false } true).1 =
      (analyzeCode "import ptrace".data).map (fun d => d.pattern) ∧
    (handleExecute
        { code := "import ptrace".data, language := "python", timeoutNs := 0,
          limits := zeroLimits, networkEnabled := false } true).2 =
      .callBackend (execRequestOf
        { code := "import ptrace".data, language := "python", timeoutNs := 0,
          limits := zeroLimits, networkEnabled := false }) := by
  have h := (spec_c1_detector_never_blocks
    { code := "import ptrace".data, language := "python", timeoutNs := 0,
      limits := zeroLimits, networkEnabled := false } true).2.2.1
    (by decide) (by decide)
  exact ⟨h.1, h.2 rfl⟩
